import Mathlib

/-!
Verification development for the RAG backend (`rag_service.py`).

The embedding works over `List Char` (the character data of Python strings).
Python's `urllib.parse` functions (`urlsplit`, `urlparse`, `urljoin`) are
modelled following CPython's implementation; the crawl loop, indexing loop
and query source-processing are translated from `RAGService.discover_urls`,
`RAGService.index_website` and `RAGService.query`.  Network fetches are
modelled by an oracle function (the web), and the crawl loop is fuel-indexed
because the Python loop need not terminate on an infinite site.
-/

namespace Rag

/-- Split a character list at the first occurrence of `c`
(models Python `str.split(c, 1)` / `str.find(c)`). Returns `none` if absent. -/
def splitOnFirst (c : Char) : List Char → Option (List Char × List Char)
  | [] => none
  | x :: xs =>
    if x = c then some ([], xs)
    else
      match splitOnFirst c xs with
      | none => none
      | some (l, r) => some (x :: l, r)

/-- Characters allowed in a URL scheme (Python `urllib.parse.scheme_chars`:
ASCII letters, digits, `+`, `-`, `.`). -/
def isSchemeChar (c : Char) : Bool :=
  c.isAlpha || c.isDigit || c = '+' || c = '-' || c = '.'

/-- The scheme-splitting step of CPython `urlsplit`: if the part before the
first `:` is non-empty, starts with a letter and consists of scheme
characters, it is the (lowercased) scheme. -/
def splitScheme (l : List Char) : Option (List Char × List Char) :=
  match splitOnFirst ':' l with
  | none => none
  | some (pre, post) =>
    match pre with
    | [] => none
    | c :: _ =>
      if c.isAlpha ∧ pre.all isSchemeChar then
        some (pre.map Char.toLower, post)
      else none

/-- The netloc-splitting step of CPython `urlsplit`: after `//`, the netloc
extends up to the next `/`, `?` or `#`. -/
def splitNetloc (l : List Char) : List Char × List Char :=
  match l with
  | '/' :: '/' :: rest =>
    (rest.takeWhile (fun c => !(c = '/' || c = '?' || c = '#')),
     rest.dropWhile (fun c => !(c = '/' || c = '?' || c = '#')))
  | _ => ([], l)

/-- Result of `urlsplit`. -/
structure UrlSplit where
  scheme : List Char
  netloc : List Char
  path : List Char
  query : List Char
  fragment : List Char
deriving Repr, DecidableEq

/-- CPython `urlsplit(url, scheme=defScheme)`: split off scheme, then netloc,
then fragment (at the first `#`), then query (at the first `?`); the
remainder is the path. -/
def urlsplitChars (url : List Char) (defScheme : List Char) : UrlSplit :=
  let (scheme, rest) :=
    match splitScheme url with
    | some (s, r) => (s, r)
    | none => (defScheme, url)
  let (netloc, rest2) := splitNetloc rest
  let (rest3, fragment) :=
    match splitOnFirst '#' rest2 with
    | some (a, b) => (a, b)
    | none => (rest2, [])
  let (path, query) :=
    match splitOnFirst '?' rest3 with
    | some (a, b) => (a, b)
    | none => (rest3, [])
  ⟨scheme, netloc, path, query, fragment⟩

/-- Schemes for which `urlparse` splits `;params` off the path
(Python `urllib.parse.uses_params`). -/
def usesParams : List (List Char) :=
  [[], "ftp".data, "hdl".data, "prospero".data, "http".data, "imap".data,
   "https".data, "shttp".data, "rtsp".data, "rtspu".data, "sip".data,
   "sips".data, "mms".data, "sftp".data, "tel".data]

/-- CPython `_splitparams`: split `;params` from the last path segment. -/
def splitParams (p : List Char) : List Char × List Char :=
  if '/' ∈ p then
    let lastSeg := (p.reverse.takeWhile (· ≠ '/')).reverse
    let pre := (p.reverse.dropWhile (· ≠ '/')).reverse
    match splitOnFirst ';' lastSeg with
    | some (a, b) => (pre ++ a, b)
    | none => (p, [])
  else
    match splitOnFirst ';' p with
    | some (a, b) => (a, b)
    | none => (p, [])

/-- Result of `urlparse` (a `UrlSplit` plus path params). -/
structure UrlParse where
  scheme : List Char
  netloc : List Char
  path : List Char
  params : List Char
  query : List Char
  fragment : List Char
deriving Repr, DecidableEq

/-- CPython `urlparse(url, scheme=defScheme)`. -/
def urlparseChars (url : List Char) (defScheme : List Char) : UrlParse :=
  let s := urlsplitChars url defScheme
  if s.scheme ∈ usesParams ∧ ';' ∈ s.path then
    let (p, params) := splitParams s.path
    ⟨s.scheme, s.netloc, p, params, s.query, s.fragment⟩
  else
    ⟨s.scheme, s.netloc, s.path, [], s.query, s.fragment⟩

/-- `urlparse` on Lean strings, no default scheme. -/
def urlparse (url : String) : UrlParse :=
  urlparseChars url.data []

/-- Schemes treated as relative-capable by `urljoin`
(Python `urllib.parse.uses_relative`). -/
def usesRelative : List (List Char) :=
  [[], "ftp".data, "http".data, "gopher".data, "nntp".data, "imap".data,
   "wais".data, "file".data, "https".data, "shttp".data, "mms".data,
   "prospero".data, "rtsp".data, "rtspu".data, "sftp".data, "svn".data,
   "svn+ssh".data, "ws".data, "wss".data]

/-- Schemes that use a netloc (Python `urllib.parse.uses_netloc`). -/
def usesNetloc : List (List Char) :=
  [[], "ftp".data, "http".data, "gopher".data, "nntp".data, "telnet".data,
   "imap".data, "wais".data, "file".data, "mms".data, "https".data,
   "shttp".data, "snews".data, "prospero".data, "rtsp".data, "rtspu".data,
   "rsync".data, "svn".data, "svn+ssh".data, "sftp".data, "nfs".data,
   "git".data, "git+ssh".data, "ws".data, "wss".data]

/-- CPython `urlunsplit`. -/
def urlunsplitChars (scheme netloc path query fragment : List Char) : List Char :=
  let url :=
    if netloc ≠ [] ∨ (path ≠ [] ∧ path.take 2 = ['/', '/']) then
      let url' := if path ≠ [] ∧ path.take 1 ≠ ['/'] then '/' :: path else path
      '/' :: '/' :: (netloc ++ url')
    else path
  let url := if scheme ≠ [] then scheme ++ ':' :: url else url
  let url := if query ≠ [] then url ++ '?' :: query else url
  if fragment ≠ [] then url ++ '#' :: fragment else url

/-- CPython `urlunparse`. -/
def urlunparseChars (scheme netloc path params query fragment : List Char) :
    List Char :=
  let path := if params ≠ [] then path ++ ';' :: params else path
  urlunsplitChars scheme netloc path query fragment

/-- The `..`/`.` resolution loop inside CPython `urljoin`. -/
def resolveSegments : List (List Char) → List (List Char) → List (List Char)
  | acc, [] => acc
  | acc, seg :: rest =>
    if seg = "..".data then resolveSegments acc.dropLast rest
    else if seg = ".".data then resolveSegments acc rest
    else resolveSegments (acc ++ [seg]) rest

/-- CPython `urljoin(base, url)`. -/
def urljoinChars (base url : List Char) : List Char :=
  if base = [] then url
  else if url = [] then base
  else
    let b := urlparseChars base []
    let u := urlparseChars url b.scheme
    if u.scheme ≠ b.scheme ∨ u.scheme ∉ usesRelative then url
    else
      let (netloc, done) :=
        if u.scheme ∈ usesNetloc then
          if u.netloc ≠ [] then (u.netloc, true) else (b.netloc, false)
        else (u.netloc, false)
      if done then
        urlunparseChars u.scheme netloc u.path u.params u.query u.fragment
      else if u.path = [] ∧ u.params = [] then
        let query := if u.query = [] then b.query else u.query
        urlunparseChars u.scheme netloc b.path b.params query u.fragment
      else
        let baseParts :=
          let bp := b.path.splitOn '/'
          if bp.getLast? ≠ some [] then bp.dropLast else bp
        let segments :=
          if u.path.take 1 = ['/'] then u.path.splitOn '/'
          else
            let segs := baseParts ++ u.path.splitOn '/'
            match segs with
            | [] => []
            | [s] => [s]
            | s :: rest =>
              s :: ((rest.dropLast.filter (· ≠ [])) ++ [rest.getLastD []])
        let resolved := resolveSegments [] segments
        let resolved :=
          if segments.getLast? = some "..".data ∨ segments.getLast? = some ".".data
          then resolved ++ [[]] else resolved
        let joined := List.intercalate ['/'] resolved
        let path := if joined = [] then ['/'] else joined
        urlunparseChars u.scheme netloc path u.params u.query u.fragment

/-- `urljoin` on Lean strings. -/
def urljoin (base url : String) : String :=
  ⟨urljoinChars base.data url.data⟩

/-- The fixed list of homepage path aliases from `is_homepage_url`. -/
def homepagePaths : List (List Char) :=
  [[], "index.html".data, "index.htm".data, "index.php".data,
   "home.html".data, "home.htm".data, "default.html".data, "default.htm".data]

/-- Python `str.strip('/')`: remove leading and trailing `/` characters. -/
def stripSlashes (l : List Char) : List Char :=
  ((l.dropWhile (· = '/')).reverse.dropWhile (· = '/')).reverse

/-- `is_homepage_url(url, base_url)` from `index_website`: false if scheme or
netloc differ; otherwise the lowercased, slash-stripped path must be one of
the homepage aliases. -/
def is_homepage_url (url base_url : String) : Bool :=
  let base_parsed := urlparse base_url
  let url_parsed := urlparse url
  if base_parsed.scheme ≠ url_parsed.scheme ∨ base_parsed.netloc ≠ url_parsed.netloc
  then false
  else
    let path := stripSlashes (url_parsed.path.map Char.toLower)
    path ∈ homepagePaths

/-! ## `discover_urls` (the crawl loop)

The network is an oracle `web : String → Option (List String)`: `some links`
models an HTTP 200 response whose parsed body yields `links` (the `href`
values of anchor tags followed by the regex-extracted `onclick` navigation
targets, in document order); `none` models a non-200 status or a fetch/parse
exception.  The loop is fuel-indexed because the Python `while` loop need
not terminate on an infinite site; besides the discovered set, the model
returns the trace of `(url, depth)` pairs actually fetched. -/

/-- `discovered_urls.add(url)` — Python set insertion, modelled on lists. -/
def setAdd (l : List String) (x : String) : List String :=
  if x ∈ l then l else l ++ [x]

/-- The enqueue filter of `discover_urls`: follow only links whose netloc
matches the base URL's netloc and that are not yet visited. -/
def linkOk (base_url : String) (visited : List String) (fu : String) : Bool :=
  (urlparse fu).netloc = (urlparse base_url).netloc ∧ fu ∉ visited

/-- The links enqueued after fetching `url` at depth `depth`. -/
def newEntries (base_url url : String) (visited : List String) (depth : Nat)
    (links : List String) : List (String × Nat) :=
  ((links.map (fun href => urljoin url href)).filter (linkOk base_url visited)).map
    (fun fu => (fu, depth + 1))

/-- The `while to_visit:` loop of `discover_urls`.  Returns the discovered
set and the trace of fetches performed. -/
def discoverLoop (web : String → Option (List String)) (base_url : String)
    (max_depth : Nat) :
    Nat → List (String × Nat) → List String → List String →
    List String × List (String × Nat)
  | _, [], _, discovered => (discovered, [])
  | 0, _ :: _, _, discovered => (discovered, [])
  | fuel + 1, (url, depth) :: rest, visited, discovered =>
    if url ∈ visited ∨ max_depth < depth then
      discoverLoop web base_url max_depth fuel rest visited discovered
    else
      let visited' := url :: visited
      match web url with
      | none =>
        let r := discoverLoop web base_url max_depth fuel rest visited' discovered
        (r.1, (url, depth) :: r.2)
      | some links =>
        let discovered' := setAdd discovered url
        let acc :=
          if depth < max_depth then newEntries base_url url visited' depth links
          else []
        let r := discoverLoop web base_url max_depth fuel (rest ++ acc) visited' discovered'
        (r.1, (url, depth) :: r.2)

/-- `discover_urls(base_url, max_depth)`: the returned URL list. -/
def discover_urls (web : String → Option (List String)) (base_url : String)
    (max_depth : Nat) (fuel : Nat) : List String :=
  (discoverLoop web base_url max_depth fuel [(base_url, 0)] [] []).1

/-- The trace of `(url, depth)` pairs fetched during `discover_urls`. -/
def discoverFetches (web : String → Option (List String)) (base_url : String)
    (max_depth : Nat) (fuel : Nat) : List (String × Nat) :=
  (discoverLoop web base_url max_depth fuel [(base_url, 0)] [] []).2

/-! ## The `onclick` navigation regex

`re.findall(r"window\.location\.href\s*=\s*['\"]([^'\"]+)['\"]", onclick)`,
compiled without `re.IGNORECASE`.  The character class `[^'\"]+` is maximal
(no backtracking can help, since the following character must be a quote),
so matching is deterministic. -/

/-- Characters matched by the regex class `['\"]`. -/
def isQuoteCh (c : Char) : Bool := c = '\'' || c = '"'

/-- Characters matched by `\s` in CPython `re` (ASCII input). -/
def isPySpace (c : Char) : Bool :=
  c = ' ' || c = '\t' || c = '\n' || c = '\r' || c = '\x0b' || c = '\x0c'

/-- Match a literal pattern prefix, returning the rest of the input. -/
def matchPrefix : List Char → List Char → Option (List Char)
  | [], s => some s
  | _ :: _, [] => none
  | p :: ps, c :: cs => if c = p then matchPrefix ps cs else none

/-- Try to match the navigation regex at the start of `s`; on success return
the capture group (the quoted target) and the rest of the input. -/
def tryNavMatch (s : List Char) : Option (List Char × List Char) :=
  match matchPrefix "window.location.href".data s with
  | none => none
  | some r1 =>
    match r1.dropWhile isPySpace with
    | '=' :: r3 =>
      match r3.dropWhile isPySpace with
      | q :: r5 =>
        if isQuoteCh q then
          match r5.takeWhile (fun c => !isQuoteCh c),
                r5.dropWhile (fun c => !isQuoteCh c) with
          | [], _ => none
          | _ :: _, [] => none
          | t :: ts, q2 :: r7 =>
            if isQuoteCh q2 then some (t :: ts, r7) else none
        else none
      | [] => none
    | _ => none

/-- The scan loop of `re.findall`: try a match at each position, and resume
after the end of each match.  Fuel-indexed (each step consumes at least one
character, so `s.length` fuel suffices). -/
def findNavTargets : Nat → List Char → List (List Char)
  | 0, _ => []
  | _, [] => []
  | fuel + 1, c :: rest =>
    match tryNavMatch (c :: rest) with
    | some (tgt, r) => tgt :: findNavTargets fuel r
    | none => findNavTargets fuel rest

/-- `re.findall` of the navigation pattern over a string. -/
def reFindallNav (s : String) : List String :=
  (findNavTargets s.data.length s.data).map (fun l => ⟨l⟩)

/-! ## `index_website`

Discovery and the network are already modelled; the per-URL body of the
indexing loop (`SimpleWebPageReader.load_data`, node parsing, insertion) is
modelled by an oracle `extract : String → Bool`: `true` means documents were
extracted and inserted, `false` means an exception was raised or no content
was extracted — both append the URL to `failed_urls`. -/

/-- The two result dictionaries `index_website` can return. -/
inductive IndexResult where
  | noUrls (message : String)
  | done (message : String) (indexed_count : Nat) (total_urls : Nat)
      (failed_urls : List String)
deriving Repr, DecidableEq

/-- The `success` field of the returned dictionary. -/
def IndexResult.success : IndexResult → Bool
  | .noUrls _ => false
  | .done _ _ _ _ => true

/-- The `indexed_count` field of the returned dictionary. -/
def IndexResult.indexedCount : IndexResult → Nat
  | .noUrls _ => 0
  | .done _ n _ _ => n

/-- The `total_urls` field (absent, read as 0, in the no-URLs dictionary). -/
def IndexResult.totalUrls : IndexResult → Nat
  | .noUrls _ => 0
  | .done _ _ t _ => t

/-- The `failed_urls` field (absent, read as empty, in the no-URLs case). -/
def IndexResult.failedUrls : IndexResult → List String
  | .noUrls _ => []
  | .done _ _ _ f => f

/-- The `for url in urls_to_index:` loop: count successes, append failures. -/
def indexLoop (extract : String → Bool) :
    List String → Nat → List String → Nat × List String
  | [], n, failed => (n, failed)
  | url :: rest, n, failed =>
    if extract url then indexLoop extract rest (n + 1) failed
    else indexLoop extract rest n (failed ++ [url])

/-- `index_website(base_url)` after URL discovery: filter out homepage
variants, short-circuit when nothing remains, otherwise run the indexing
loop and report counts. -/
def index_website (extract : String → Bool) (urls : List String)
    (base_url : String) : IndexResult :=
  let urls_to_index := urls.filter (fun u => !is_homepage_url u base_url)
  if urls_to_index = [] then
    .noUrls "No URLs to index after excluding homepage"
  else
    let (n, failed) := indexLoop extract urls_to_index 0 []
    .done (s!"Indexed {n} out of {urls_to_index.length} URLs (homepage variations excluded)")
      n urls_to_index.length failed

/-! ## `query`

The retrieval/synthesis pipeline is an oracle: given a question it either
raises (`Except.error`) or returns a response string and the retrieved
source nodes.  A node carries an optional `source_url` metadata entry, an
optional relevance score, and its text.  Scores are modelled on `Int`
(only their ordering matters to the code under verification). -/

/-- A retrieved node (`response.source_nodes[i]`). -/
structure RetrievedNode where
  source_url : Option String
  score : Option Int
  text : String

/-- A source citation dictionary `{url, score, text_snippet}`. -/
structure SourceInfo where
  url : String
  score : Int
  text_snippet : String
deriving Repr, DecidableEq

/-- `text[:200] + "..."` when the text exceeds 200 characters. -/
def snippetOf (t : String) : String :=
  if 200 < t.length then t.take 200 ++ "..." else t

/-- Build the raw `sources` list: keep nodes carrying a `source_url`,
defaulting a missing score to 0. -/
def buildSources (nodes : List RetrievedNode) : List SourceInfo :=
  nodes.filterMap fun nd =>
    match nd.source_url with
    | some u => some ⟨u, nd.score.getD 0, snippetOf nd.text⟩
    | none => none

/-- The URL-deduplication loop (`seen_urls` accumulates in `seen`). -/
def dedupByUrl : List SourceInfo → List String → List SourceInfo
  | [], _ => []
  | s :: rest, seen =>
    if s.url ∈ seen then dedupByUrl rest seen
    else s :: dedupByUrl rest (s.url :: seen)

/-- Descending-score comparison used by
`unique_sources.sort(key=lambda x: x['score'], reverse=True)`. -/
def scoreGe (a b : SourceInfo) : Bool := b.score ≤ a.score

/-- The full source post-processing of `query`: dedup by URL (first seen
kept), then stable sort by descending score (Python's `list.sort` is
stable, as is `mergeSort`). -/
def querySources (nodes : List RetrievedNode) : List SourceInfo :=
  (dedupByUrl (buildSources nodes) []).mergeSort scoreGe

/-- The result dictionary of `query`. -/
structure QueryResult where
  success : Bool
  message : Option String
  response : String
  sources : List SourceInfo
  question : Option String

/-- The service state seen by `query`: `query_engine` is `None` until
`_setup_query_engine` has installed a pipeline. -/
structure RagState where
  query_engine : Option (String → Except String (String × List RetrievedNode))

/-- `query(question)`: report "not initialized" when no engine exists,
otherwise run the pipeline, converting any exception into a reported
failure, and post-process the sources. -/
def ragQuery (st : RagState) (question : String) : QueryResult :=
  match st.query_engine with
  | none =>
    { success := false
      message := some "RAG system not initialized. Please index content first."
      response := ""
      sources := []
      question := none }
  | some engine =>
    match engine question with
    | .error e =>
      { success := false
        message := some ("Error processing query: " ++ e)
        response := ""
        sources := []
        question := none }
    | .ok (resp, nodes) =>
      { success := true
        message := none
        response := resp
        sources := querySources nodes
        question := some question }

/-! ## Concrete sites used as witnesses and counterexamples -/

/-- A two-page site whose seed page links to a same-host page served under a
different scheme. -/
def webCross : String → Option (List String) := fun u =>
  if u = "http://x" then some ["https://x/a"]
  else if u = "https://x/a" then some [] else none

/-- A two-page same-origin site. -/
def webSame : String → Option (List String) := fun u =>
  if u = "http://x" then some ["a.html"]
  else if u = "http://x/a.html" then some [] else none

/-! ## Helper lemmas -/

/-- Closed form of the indexing loop: it counts successful URLs and appends
the failing ones, in order, to the accumulator. -/
theorem indexLoop_eq (extract : String → Bool) :
    ∀ (l : List String) (n : Nat) (f : List String),
      indexLoop extract l n f =
        (n + l.countP extract, f ++ l.filter (fun u => !extract u)) := by
  intro l
  induction l with
  | nil => intro n f; simp [indexLoop]
  | cons u rest ih =>
    intro n f
    by_cases h : extract u
    · simp [indexLoop, h, ih, List.countP_cons]
      omega
    · simp [indexLoop, h, ih, List.countP_cons]

/-- Field-level characterization of `index_website` when at least one
non-homepage URL was discovered. -/
theorem index_website_success_fields (extract : String → Bool)
    (urls : List String) (base_url : String)
    (h : urls.filter (fun u => !is_homepage_url u base_url) ≠ []) :
    (index_website extract urls base_url).success = true ∧
    (index_website extract urls base_url).indexedCount =
      (urls.filter (fun u => !is_homepage_url u base_url)).countP extract ∧
    (index_website extract urls base_url).totalUrls =
      (urls.filter (fun u => !is_homepage_url u base_url)).length ∧
    (index_website extract urls base_url).failedUrls =
      (urls.filter (fun u => !is_homepage_url u base_url)).filter
        (fun u => !extract u) := by
  unfold index_website
  simp [h, indexLoop_eq, IndexResult.success, IndexResult.indexedCount,
    IndexResult.totalUrls, IndexResult.failedUrls]

/-- A literal always matches itself as a prefix. -/
theorem matchPrefix_append : ∀ (p s : List Char), matchPrefix p (p ++ s) = some s := by
  intro p
  induction p with
  | nil => intro s; rfl
  | cons c cs ih => intro s; simp [matchPrefix, ih]

/-- `takeWhile`/`dropWhile` on a block of accepted characters followed by a
rejected one. -/
theorem takeWhile_all_append (p : Char → Bool) :
    ∀ (t : List Char) (x : Char), (∀ c ∈ t, p c = true) → p x = false →
      (t ++ [x]).takeWhile p = t ∧ (t ++ [x]).dropWhile p = [x] := by
  intro t
  induction t with
  | nil => intro x _ hp; simp [List.takeWhile, List.dropWhile, hp]
  | cons c cs ih =>
    intro x h hp
    have hc : p c = true := h c (List.mem_cons_self _ _)
    have hrest := ih x (fun d hd => h d (List.mem_cons_of_mem _ hd)) hp
    simp [List.takeWhile_cons, List.dropWhile_cons, hc, hrest.1, hrest.2]

/-- Exhausted input yields no further regex matches, whatever the fuel. -/
theorem findNavTargets_nil : ∀ fuel, findNavTargets fuel [] = [] := by
  intro fuel
  cases fuel <;> rfl

/-- The navigation regex matches `window.location.href=` followed by any
quote character, a non-empty run of non-quote characters, and any quote
character, capturing the run. -/
theorem tryNavMatch_quoted (t : List Char) (q1 q2 : Char) (ht : t ≠ [])
    (hq : ∀ c ∈ t, isQuoteCh c = false)
    (h1 : isQuoteCh q1 = true) (h2 : isQuoteCh q2 = true) :
    tryNavMatch ("window.location.href".data ++ '=' :: q1 :: (t ++ [q2])) =
      some (t, []) := by
  have hq1 : isPySpace q1 = false := by
    have : q1 = '\'' ∨ q1 = '"' := by
      simpa [isQuoteCh] using h1
    rcases this with rfl | rfl <;> decide
  have htw := takeWhile_all_append (fun c => !isQuoteCh c) t q2
    (fun c hc => by simp [hq c hc]) (by simp [h2])
  unfold tryNavMatch
  rw [matchPrefix_append]
  simp only [List.dropWhile_cons, show isPySpace '=' = false by decide,
    Bool.false_eq_true, if_false, hq1, h1, if_true, htw.1, htw.2]
  cases t with
  | nil => exact absurd rfl ht
  | cons t0 ts => simp [h2]

/-- `splitOnFirst` finds nothing when the character is absent. -/
theorem splitOnFirst_of_not_mem {c : Char} :
    ∀ {l : List Char}, c ∉ l → splitOnFirst c l = none := by
  intro l
  induction l with
  | nil => intro; rfl
  | cons x xs ih =>
    intro h
    have hx : ¬x = c := fun he => h (he ▸ List.mem_cons_self _ _)
    simp [splitOnFirst, hx, ih (fun hm => h (List.mem_cons_of_mem _ hm))]

/-- `splitOnFirst` splits at the first occurrence. -/
theorem splitOnFirst_append {c : Char} :
    ∀ {l₁ : List Char} (l₂ : List Char), c ∉ l₁ →
      splitOnFirst c (l₁ ++ c :: l₂) = some (l₁, l₂) := by
  intro l₁
  induction l₁ with
  | nil => intro l₂ _; simp [splitOnFirst]
  | cons x xs ih =>
    intro l₂ h
    have hx : ¬x = c := fun he => h (he ▸ List.mem_cons_self _ _)
    simp [splitOnFirst, hx, ih l₂ (fun hm => h (List.mem_cons_of_mem _ hm))]

/-- `takeWhile` walks through a block of accepted characters. -/
theorem takeWhile_append_all {p : Char → Bool} :
    ∀ (t rest : List Char), (∀ c ∈ t, p c = true) →
      (t ++ rest).takeWhile p = t ++ rest.takeWhile p := by
  intro t
  induction t with
  | nil => intro rest _; rfl
  | cons c cs ih =>
    intro rest h
    simp [List.takeWhile_cons, h c (List.mem_cons_self _ _),
      ih rest (fun d hd => h d (List.mem_cons_of_mem _ hd))]

/-- `dropWhile` walks through a block of accepted characters. -/
theorem dropWhile_append_all {p : Char → Bool} :
    ∀ (t rest : List Char), (∀ c ∈ t, p c = true) →
      (t ++ rest).dropWhile p = rest.dropWhile p := by
  intro t
  induction t with
  | nil => intro rest _; rfl
  | cons c cs ih =>
    intro rest h
    simp [List.dropWhile_cons, h c (List.mem_cons_self _ _),
      ih rest (fun d hd => h d (List.mem_cons_of_mem _ hd))]

/-- `takeWhile` keeps a list of accepted characters whole. -/
theorem takeWhile_all {p : Char → Bool} (n : List Char)
    (h : ∀ c ∈ n, p c = true) : n.takeWhile p = n := by
  have := takeWhile_append_all n [] h
  simpa using this

/-- `dropWhile` consumes a list of accepted characters entirely. -/
theorem dropWhile_all {p : Char → Bool} (n : List Char)
    (h : ∀ c ∈ n, p c = true) : n.dropWhile p = [] := by
  have := dropWhile_append_all n [] h
  simpa using this

/-- A netloc block free of `/?#` followed by a path is split correctly. -/
theorem splitNetloc_append (n rest : List Char)
    (hn : ∀ c ∈ n, (!(c = '/' || c = '?' || c = '#')) = true) :
    splitNetloc ('/' :: '/' :: (n ++ '/' :: rest)) = (n, '/' :: rest) := by
  show ((n ++ '/' :: rest).takeWhile (fun c => !(c = '/' || c = '?' || c = '#')),
    (n ++ '/' :: rest).dropWhile (fun c => !(c = '/' || c = '?' || c = '#'))) =
    (n, '/' :: rest)
  rw [takeWhile_append_all n ('/' :: rest) hn,
    dropWhile_append_all n ('/' :: rest) hn]
  simp [List.takeWhile_cons, List.dropWhile_cons]

/-- A bare netloc (nothing after the authority) is split correctly. -/
theorem splitNetloc_bare (n : List Char)
    (hn : ∀ c ∈ n, (!(c = '/' || c = '?' || c = '#')) = true) :
    splitNetloc ('/' :: '/' :: n) = (n, []) := by
  show (n.takeWhile (fun c => !(c = '/' || c = '?' || c = '#')),
    n.dropWhile (fun c => !(c = '/' || c = '?' || c = '#'))) = (n, [])
  rw [takeWhile_all n hn, dropWhile_all n hn]

/-- `urlsplit` of `http://<n>/<r>` with no query or fragment markers. -/
theorem urlsplitChars_plain (n r : List Char)
    (hn : ∀ c ∈ n, (!(c = '/' || c = '?' || c = '#')) = true)
    (h1 : '#' ∉ r) (h2 : '?' ∉ r) :
    urlsplitChars ("http:".data ++ '/' :: '/' :: (n ++ '/' :: r)) [] =
      ⟨"http".data, n, '/' :: r, [], []⟩ := by
  unfold urlsplitChars
  rw [show splitScheme ("http:".data ++ '/' :: '/' :: (n ++ '/' :: r)) =
      some ("http".data, '/' :: '/' :: (n ++ '/' :: r)) from rfl]
  dsimp only
  rw [splitNetloc_append n r hn]
  dsimp only
  rw [splitOnFirst_of_not_mem (show '#' ∉ '/' :: r by simp [h1]),
    splitOnFirst_of_not_mem (show '?' ∉ '/' :: r by simp [h2])]

/-- `urlsplit` of `http://<n>/<p>?<q>`. -/
theorem urlsplitChars_query (n p q : List Char)
    (hn : ∀ c ∈ n, (!(c = '/' || c = '?' || c = '#')) = true)
    (hp1 : '#' ∉ p) (hp2 : '?' ∉ p) (hq : '#' ∉ q) :
    urlsplitChars ("http:".data ++ '/' :: '/' :: (n ++ '/' :: (p ++ '?' :: q))) [] =
      ⟨"http".data, n, '/' :: p, q, []⟩ := by
  unfold urlsplitChars
  rw [show splitScheme ("http:".data ++ '/' :: '/' :: (n ++ '/' :: (p ++ '?' :: q))) =
      some ("http".data, '/' :: '/' :: (n ++ '/' :: (p ++ '?' :: q))) from rfl]
  dsimp only
  rw [splitNetloc_append n (p ++ '?' :: q) hn]
  dsimp only
  rw [splitOnFirst_of_not_mem
      (show '#' ∉ '/' :: (p ++ '?' :: q) by simp [hp1, hq])]
  dsimp only
  rw [show ('/' :: (p ++ '?' :: q)) = ('/' :: p) ++ '?' :: q from rfl,
    splitOnFirst_append q (show '?' ∉ '/' :: p by simp [hp2])]

/-- `urlsplit` of `http://<n>/<p>#<f>`. -/
theorem urlsplitChars_frag (n p f : List Char)
    (hn : ∀ c ∈ n, (!(c = '/' || c = '?' || c = '#')) = true)
    (hp1 : '#' ∉ p) (hp2 : '?' ∉ p) :
    urlsplitChars ("http:".data ++ '/' :: '/' :: (n ++ '/' :: (p ++ '#' :: f))) [] =
      ⟨"http".data, n, '/' :: p, [], f⟩ := by
  unfold urlsplitChars
  rw [show splitScheme ("http:".data ++ '/' :: '/' :: (n ++ '/' :: (p ++ '#' :: f))) =
      some ("http".data, '/' :: '/' :: (n ++ '/' :: (p ++ '#' :: f))) from rfl]
  dsimp only
  rw [splitNetloc_append n (p ++ '#' :: f) hn]
  dsimp only
  rw [show ('/' :: (p ++ '#' :: f)) = ('/' :: p) ++ '#' :: f from rfl,
    splitOnFirst_append f (show '#' ∉ '/' :: p by simp [hp1])]
  dsimp only
  rw [splitOnFirst_of_not_mem (show '?' ∉ '/' :: p by simp [hp2])]

/-- `urlsplit` of a bare authority `http://<n>`. -/
theorem urlsplitChars_bare (n : List Char)
    (hn : ∀ c ∈ n, (!(c = '/' || c = '?' || c = '#')) = true) :
    urlsplitChars ("http:".data ++ '/' :: '/' :: n) [] =
      ⟨"http".data, n, [], [], []⟩ := by
  unfold urlsplitChars
  rw [show splitScheme ("http:".data ++ '/' :: '/' :: n) =
      some ("http".data, '/' :: '/' :: n) from rfl]
  dsimp only
  rw [splitNetloc_bare n hn]
  rfl

/-- `urlparse` of `http://<n>/<r>` with no query/fragment/params markers. -/
theorem urlparseChars_plain (n r : List Char)
    (hn : ∀ c ∈ n, (!(c = '/' || c = '?' || c = '#')) = true)
    (h1 : '#' ∉ r) (h2 : '?' ∉ r) (h3 : ';' ∉ r) :
    urlparseChars ("http:".data ++ '/' :: '/' :: (n ++ '/' :: r)) [] =
      ⟨"http".data, n, '/' :: r, [], [], []⟩ := by
  unfold urlparseChars
  rw [urlsplitChars_plain n r hn h1 h2]
  dsimp only
  rw [if_neg (by simp [h3])]

/-- `urlparse` of `http://<n>/<p>?<q>`. -/
theorem urlparseChars_query (n p q : List Char)
    (hn : ∀ c ∈ n, (!(c = '/' || c = '?' || c = '#')) = true)
    (hp1 : '#' ∉ p) (hp2 : '?' ∉ p) (hp3 : ';' ∉ p) (hq : '#' ∉ q) :
    urlparseChars ("http:".data ++ '/' :: '/' :: (n ++ '/' :: (p ++ '?' :: q))) [] =
      ⟨"http".data, n, '/' :: p, [], q, []⟩ := by
  unfold urlparseChars
  rw [urlsplitChars_query n p q hn hp1 hp2 hq]
  dsimp only
  rw [if_neg (by simp [hp3])]

/-- `urlparse` of `http://<n>/<p>#<f>`. -/
theorem urlparseChars_frag (n p f : List Char)
    (hn : ∀ c ∈ n, (!(c = '/' || c = '?' || c = '#')) = true)
    (hp1 : '#' ∉ p) (hp2 : '?' ∉ p) (hp3 : ';' ∉ p) :
    urlparseChars ("http:".data ++ '/' :: '/' :: (n ++ '/' :: (p ++ '#' :: f))) [] =
      ⟨"http".data, n, '/' :: p, [], [], f⟩ := by
  unfold urlparseChars
  rw [urlsplitChars_frag n p f hn hp1 hp2]
  dsimp only
  rw [if_neg (by simp [hp3])]

/-- `urlparse` of a bare authority `http://<n>`. -/
theorem urlparseChars_bare (n : List Char)
    (hn : ∀ c ∈ n, (!(c = '/' || c = '?' || c = '#')) = true) :
    urlparseChars ("http:".data ++ '/' :: '/' :: n) [] =
      ⟨"http".data, n, [], [], [], []⟩ := by
  unfold urlparseChars
  rw [urlsplitChars_bare n hn]
  dsimp only
  rw [if_neg (by simp)]

/-- Membership in a modelled Python set insertion. -/
theorem mem_setAdd {l : List String} {x u : String} (h : u ∈ setAdd l x) :
    u ∈ l ∨ u = x := by
  unfold setAdd at h
  by_cases hx : x ∈ l
  · rw [if_pos hx] at h
    exact Or.inl h
  · rw [if_neg hx] at h
    rcases List.mem_append.mp h with h' | h'
    · exact Or.inl h'
    · exact Or.inr (List.mem_singleton.mp h')

/-- A link accepted by the enqueue filter has the base URL's netloc. -/
theorem linkOk_netloc {base_url : String} {visited : List String} {fu : String}
    (h : linkOk base_url visited fu = true) :
    (urlparse fu).netloc = (urlparse base_url).netloc := by
  simp only [linkOk, decide_eq_true_eq] at h
  exact h.1

/-- Every fetch performed by the crawl loop is of a URL not yet visited at
call time, at a depth within the bound. -/
theorem discoverLoop_fetch_mem (web : String → Option (List String))
    (base_url : String) (max_depth : Nat) :
    ∀ (fuel : Nat) (tv : List (String × Nat)) (visited discovered : List String)
      (p : String × Nat),
      p ∈ (discoverLoop web base_url max_depth fuel tv visited discovered).2 →
      p.1 ∉ visited ∧ p.2 ≤ max_depth := by
  intro fuel
  induction fuel with
  | zero =>
    intro tv visited discovered p hp
    cases tv <;> simp [discoverLoop] at hp
  | succ n ih =>
    intro tv visited discovered p hp
    cases tv with
    | nil => simp [discoverLoop] at hp
    | cons hd rest =>
      obtain ⟨url, depth⟩ := hd
      by_cases hg : url ∈ visited ∨ max_depth < depth
      · simp only [discoverLoop, if_pos hg] at hp
        exact ih rest visited discovered p hp
      · simp only [discoverLoop, if_neg hg] at hp
        push_neg at hg
        obtain ⟨hv, hd2⟩ := hg
        cases hw : web url <;> simp only [hw] at hp <;>
          rcases List.mem_cons.mp hp with heq | hp'
        · subst heq
          exact ⟨hv, by omega⟩
        · have h' := ih _ _ _ p hp'
          exact ⟨fun hmem => h'.1 (List.mem_cons_of_mem _ hmem), h'.2⟩
        · subst heq
          exact ⟨hv, by omega⟩
        · have h' := ih _ _ _ p hp'
          exact ⟨fun hmem => h'.1 (List.mem_cons_of_mem _ hmem), h'.2⟩

/-- The crawl loop never fetches the same URL twice. -/
theorem discoverLoop_fetch_nodup (web : String → Option (List String))
    (base_url : String) (max_depth : Nat) :
    ∀ (fuel : Nat) (tv : List (String × Nat)) (visited discovered : List String),
      (((discoverLoop web base_url max_depth fuel tv visited discovered).2).map
        Prod.fst).Nodup := by
  intro fuel
  induction fuel with
  | zero =>
    intro tv visited discovered
    cases tv <;> simp [discoverLoop]
  | succ n ih =>
    intro tv visited discovered
    cases tv with
    | nil => simp [discoverLoop]
    | cons hd rest =>
      obtain ⟨url, depth⟩ := hd
      by_cases hg : url ∈ visited ∨ max_depth < depth
      · simp only [discoverLoop, if_pos hg]
        exact ih rest visited discovered
      · simp only [discoverLoop, if_neg hg]
        cases hw : web url <;> simp only [hw, List.map_cons, List.nodup_cons] <;>
          refine ⟨?_, ih _ _ _⟩ <;>
          · intro hmem
            obtain ⟨p, hp, hurl⟩ := List.mem_map.mp hmem
            have h' := discoverLoop_fetch_mem web base_url max_depth _ _ _ _ p hp
            exact h'.1 (hurl ▸ List.mem_cons_self _ _)

/-- Crawl-loop invariant: if every pending and every discovered URL has the
base URL's netloc, so does every URL in the final discovered set. -/
theorem discoverLoop_netloc (web : String → Option (List String))
    (base_url : String) (max_depth : Nat) :
    ∀ (fuel : Nat) (tv : List (String × Nat)) (visited discovered : List String),
      (∀ p ∈ tv, (urlparse p.1).netloc = (urlparse base_url).netloc) →
      (∀ u ∈ discovered, (urlparse u).netloc = (urlparse base_url).netloc) →
      ∀ u ∈ (discoverLoop web base_url max_depth fuel tv visited discovered).1,
        (urlparse u).netloc = (urlparse base_url).netloc := by
  intro fuel
  induction fuel with
  | zero =>
    intro tv visited discovered htv hdisc u hu
    cases tv <;> simp only [discoverLoop] at hu <;> exact hdisc u hu
  | succ n ih =>
    intro tv visited discovered htv hdisc u hu
    cases tv with
    | nil =>
      simp only [discoverLoop] at hu
      exact hdisc u hu
    | cons hd rest =>
      obtain ⟨url, depth⟩ := hd
      have hrest : ∀ p ∈ rest, (urlparse p.1).netloc = (urlparse base_url).netloc :=
        fun p hp => htv p (List.mem_cons_of_mem _ hp)
      by_cases hg : url ∈ visited ∨ max_depth < depth
      · simp only [discoverLoop, if_pos hg] at hu
        exact ih rest visited discovered hrest hdisc u hu
      · simp only [discoverLoop, if_neg hg] at hu
        cases hw : web url with
        | none =>
          simp only [hw] at hu
          exact ih rest (url :: visited) discovered hrest hdisc u hu
        | some links =>
          simp only [hw] at hu
          refine ih _ (url :: visited) _ ?_ ?_ u hu
          · intro p hp
            rcases List.mem_append.mp hp with hp' | hp'
            · exact hrest p hp'
            · by_cases hdep : depth < max_depth
              · rw [if_pos hdep] at hp'
                unfold newEntries at hp'
                obtain ⟨fu, hfu, heq⟩ := List.mem_map.mp hp'
                obtain ⟨_, hok⟩ := List.mem_filter.mp hfu
                rw [← heq]
                exact linkOk_netloc hok
              · rw [if_neg hdep] at hp'
                simp at hp'
          · intro v hv
            rcases mem_setAdd hv with hv' | rfl
            · exact hdisc v hv'
            · exact htv (v, depth) (List.mem_cons_self _ _)

/-- Every survivor of URL-deduplication has a URL outside the seen set and
is the first occurrence of its URL in the input list. -/
theorem dedupByUrl_find (l : List SourceInfo) :
    ∀ (seen : List String) (s : SourceInfo), s ∈ dedupByUrl l seen →
      s.url ∉ seen ∧ l.find? (fun t => t.url == s.url) = some s := by
  induction l with
  | nil => intro seen s hs; simp [dedupByUrl] at hs
  | cons s0 rest ih =>
    intro seen s hs
    by_cases h0 : s0.url ∈ seen
    · simp only [dedupByUrl, if_pos h0] at hs
      obtain ⟨hns, hf⟩ := ih seen s hs
      have hne : (s0.url == s.url) = false := by
        simp only [beq_eq_false_iff_ne, ne_eq]
        intro heq
        exact hns (heq ▸ h0)
      exact ⟨hns, by simp [List.find?_cons, hne, hf]⟩
    · simp only [dedupByUrl, if_neg h0] at hs
      rcases List.mem_cons.mp hs with rfl | hs'
      · exact ⟨h0, by simp [List.find?_cons]⟩
      · obtain ⟨hns, hf⟩ := ih _ s hs'
        have hne : (s0.url == s.url) = false := by
          simp only [beq_eq_false_iff_ne, ne_eq]
          intro heq
          exact hns (heq ▸ List.mem_cons_self _ _)
        exact ⟨fun hseen => hns (List.mem_cons_of_mem _ hseen),
          by simp [List.find?_cons, hne, hf]⟩

/-- URL-deduplication leaves pairwise-distinct URLs. -/
theorem dedupByUrl_urls_nodup (l : List SourceInfo) :
    ∀ seen : List String,
      ((dedupByUrl l seen).map (fun s => s.url)).Nodup := by
  induction l with
  | nil => intro seen; simp [dedupByUrl]
  | cons s0 rest ih =>
    intro seen
    by_cases h0 : s0.url ∈ seen
    · simp only [dedupByUrl, if_pos h0]
      exact ih seen
    · simp only [dedupByUrl, if_neg h0, List.map_cons, List.nodup_cons]
      refine ⟨?_, ih _⟩
      intro hmem
      obtain ⟨s, hs, hurl⟩ := List.mem_map.mp hmem
      obtain ⟨hns, _⟩ := dedupByUrl_find rest (s0.url :: seen) s hs
      exact hns (hurl ▸ List.mem_cons_self _ _)

/-- A success count plus the failures is the whole list. -/
theorem countP_add_filter_not (p : String → Bool) (l : List String) :
    l.countP p + (l.filter (fun u => !p u)).length = l.length := by
  induction l with
  | nil => simp
  | cons u rest ih =>
    by_cases h : p u <;> simp [List.countP_cons, h] <;> omega

/-- Example per-URL extraction outcome: everything succeeds except one URL. -/
def extractW : String → Bool := fun u => u ≠ "http://x/b"

/-- Example discovered URL list: a homepage variant plus three pages. -/
def urlsW : List String := ["http://x/", "http://x/a", "http://x/b", "http://x/c"]

/-! ## Claims -/

/-- C2: for every question, calling `query` while no query engine has been
set up (the state before `_setup_vector_store` installs one) returns a
reported failure: `success=false`, the "not initialized" message, empty
response text and an empty sources list.  `ragQuery` is a total function,
so no exception is raised. -/
theorem query_before_init (st : RagState) (question : String)
    (h : st.query_engine = none) :
    ragQuery st question =
      { success := false
        message := some "RAG system not initialized. Please index content first."
        response := ""
        sources := []
        question := none } := by
  unfold ragQuery
  rw [h]

/-- Witness for C2 at a concrete uninitialized state and question. -/
theorem query_before_init_witness :
    (RagState.mk none).query_engine = none ∧
    ragQuery (RagState.mk none) "What is Harbor?" =
      { success := false
        message := some "RAG system not initialized. Please index content first."
        response := ""
        sources := []
        question := none } :=
  ⟨rfl, query_before_init (RagState.mk none) "What is Harbor?" rfl⟩

/-- C6: when every discovered URL is a homepage variant, `index_website`
returns the no-URLs dictionary: `success=false`, `indexed_count=0` and an
explanatory message, and (being a total function) raises no exception. -/
theorem index_zero_nonhomepage (extract : String → Bool) (urls : List String)
    (base_url : String) (h : ∀ u ∈ urls, is_homepage_url u base_url = true) :
    index_website extract urls base_url =
      .noUrls "No URLs to index after excluding homepage" ∧
    (index_website extract urls base_url).success = false ∧
    (index_website extract urls base_url).indexedCount = 0 := by
  have hfil : urls.filter (fun u => !is_homepage_url u base_url) = [] := by
    simp only [List.filter_eq_nil_iff]
    intro a ha
    simp [h a ha]
  have hmain : index_website extract urls base_url =
      .noUrls "No URLs to index after excluding homepage" := by
    unfold index_website
    simp [hfil]
  exact ⟨hmain, by rw [hmain]; rfl, by rw [hmain]; rfl⟩

/-- Witness for C6: both discovered URLs are homepage variants. -/
theorem index_zero_nonhomepage_witness :
    (∀ u ∈ ["http://x/", "http://x/index.html"],
       is_homepage_url u "http://x" = true) ∧
    index_website (fun _ => true) ["http://x/", "http://x/index.html"] "http://x" =
      .noUrls "No URLs to index after excluding homepage" ∧
    (index_website (fun _ => true) ["http://x/", "http://x/index.html"]
        "http://x").success = false ∧
    (index_website (fun _ => true) ["http://x/", "http://x/index.html"]
        "http://x").indexedCount = 0 :=
  ⟨by decide,
   index_zero_nonhomepage (fun _ => true) ["http://x/", "http://x/index.html"]
     "http://x" (by decide)⟩

/-- C4: over a non-empty list of non-homepage URLs, each per-URL failure is
appended to `failed_urls` and the loop continues; the result has
`success=true`, `indexed_count` the number of successes, `total_urls` the
number attempted, and `failed_urls` exactly the failing URLs in order. -/
theorem index_website_per_url_failures (extract : String → Bool)
    (urls : List String) (base_url : String)
    (h : urls.filter (fun u => !is_homepage_url u base_url) ≠ []) :
    (index_website extract urls base_url).success = true ∧
    (index_website extract urls base_url).indexedCount =
      (urls.filter (fun u => !is_homepage_url u base_url)).countP extract ∧
    (index_website extract urls base_url).totalUrls =
      (urls.filter (fun u => !is_homepage_url u base_url)).length ∧
    (index_website extract urls base_url).failedUrls =
      (urls.filter (fun u => !is_homepage_url u base_url)).filter
        (fun u => !extract u) :=
  index_website_success_fields extract urls base_url h

/-- Witness for C4, the spec's own example: one URL fails extraction and two
succeed, giving `indexed_count=2` and exactly the one failing URL. -/
theorem index_website_per_url_failures_witness :
    (urlsW.filter (fun u => !is_homepage_url u "http://x") ≠ []) ∧
    (index_website extractW urlsW "http://x").success = true ∧
    (index_website extractW urlsW "http://x").indexedCount = 2 ∧
    (index_website extractW urlsW "http://x").totalUrls = 3 ∧
    (index_website extractW urlsW "http://x").failedUrls = ["http://x/b"] := by
  have h := index_website_per_url_failures extractW urlsW "http://x" (by decide)
  refine ⟨by decide, h.1, ?_, ?_, ?_⟩
  · rw [h.2.1]; decide
  · rw [h.2.2.1]; decide
  · rw [h.2.2.2]; decide

/-- C9: whenever `index_website` reports `success=true`, the counts add up
(`indexed_count + |failed_urls| = total_urls`) and every failed URL is a
discovered non-homepage URL. -/
theorem index_website_count_invariant (extract : String → Bool)
    (urls : List String) (base_url : String)
    (h : (index_website extract urls base_url).success = true) :
    (index_website extract urls base_url).indexedCount +
      (index_website extract urls base_url).failedUrls.length =
      (index_website extract urls base_url).totalUrls ∧
    ∀ u ∈ (index_website extract urls base_url).failedUrls,
      u ∈ urls ∧ is_homepage_url u base_url = false := by
  by_cases hfil : urls.filter (fun u => !is_homepage_url u base_url) = []
  · exfalso
    unfold index_website at h
    simp [hfil, IndexResult.success] at h
  · obtain ⟨h1, h2, h3, h4⟩ := index_website_success_fields extract urls base_url hfil
    constructor
    · rw [h2, h3, h4]
      exact countP_add_filter_not extract _
    · rw [h4]
      intro u hu
      obtain ⟨hu1, _⟩ := List.mem_filter.mp hu
      obtain ⟨hu2, hu3⟩ := List.mem_filter.mp hu1
      exact ⟨hu2, by simpa using hu3⟩

/-- Witness for C9 at the concrete three-page run. -/
theorem index_website_count_invariant_witness :
    (index_website extractW urlsW "http://x").success = true ∧
    ((index_website extractW urlsW "http://x").indexedCount +
      (index_website extractW urlsW "http://x").failedUrls.length =
      (index_website extractW urlsW "http://x").totalUrls ∧
    ∀ u ∈ (index_website extractW urlsW "http://x").failedUrls,
      u ∈ urlsW ∧ is_homepage_url u "http://x" = false) :=
  ⟨by decide, index_website_count_invariant extractW urlsW "http://x" (by decide)⟩

/-- C5: `is_homepage_url` returns false when scheme or netloc differ from
the base URL, and otherwise returns true exactly when the lowercased,
slash-stripped path is one of the eight homepage aliases; in particular the
four example classifications from the spec hold. -/
theorem is_homepage_url_spec :
    (∀ url base_url : String,
      is_homepage_url url base_url = true ↔
        ((urlparse url).scheme = (urlparse base_url).scheme ∧
         (urlparse url).netloc = (urlparse base_url).netloc ∧
         stripSlashes ((urlparse url).path.map Char.toLower) ∈ homepagePaths)) ∧
    is_homepage_url "http://x/" "http://x" = true ∧
    is_homepage_url "http://x/INDEX.HTML" "http://x" = true ∧
    is_homepage_url "http://x/about" "http://x" = false ∧
    is_homepage_url "http://y/" "http://x" = false := by
  refine ⟨?_, by decide, by decide, by decide, by decide⟩
  intro url base_url
  unfold is_homepage_url
  by_cases h : (urlparse base_url).scheme ≠ (urlparse url).scheme ∨
      (urlparse base_url).netloc ≠ (urlparse url).netloc
  · simp only [if_pos h, Bool.false_eq_true, false_iff]
    rintro ⟨hs, hn, _⟩
    rcases h with h | h
    · exact h hs.symm
    · exact h hn.symm
  · simp only [if_neg h]
    push_neg at h
    obtain ⟨hs, hn⟩ := h
    simp [hs.symm, hn.symm]

/-- C7: the sources list of a query keeps at most one citation per URL —
always the first-seen citation for that URL — and is sorted by descending
relevance score. -/
theorem query_sources_dedup_sorted (nodes : List RetrievedNode) :
    ((querySources nodes).map (fun s => s.url)).Nodup ∧
    (∀ s ∈ querySources nodes,
      (buildSources nodes).find? (fun t => t.url == s.url) = some s) ∧
    (querySources nodes).Pairwise (fun a b => b.score ≤ a.score) := by
  unfold querySources
  have hperm : List.Perm ((dedupByUrl (buildSources nodes) []).mergeSort scoreGe)
      (dedupByUrl (buildSources nodes) []) := List.mergeSort_perm _ _
  refine ⟨?_, ?_, ?_⟩
  · exact ((hperm.map (fun s => s.url)).nodup_iff).mpr
      (dedupByUrl_urls_nodup (buildSources nodes) [])
  · intro s hs
    exact (dedupByUrl_find (buildSources nodes) [] s
      (List.mem_mergeSort.mp hs)).2
  · have hsorted := @List.sorted_mergeSort SourceInfo scoreGe
      (fun a b c hab hbc => by
        simp only [scoreGe, decide_eq_true_eq] at *
        exact le_trans hbc hab)
      (fun a b => by
        simp only [scoreGe, Bool.or_eq_true, decide_eq_true_eq]
        exact le_total b.score a.score)
      (dedupByUrl (buildSources nodes) [])
    exact hsorted.imp (fun h => by simpa [scoreGe] using h)

/-- C1 counterexample: the enqueue filter in `discover_urls` compares only
`urlparse(...).netloc` (host), never the scheme, so from the seed
`http://x` a link to `https://x/a` — same host, different scheme, hence a
different origin — is enqueued, fetched and returned.  This refutes the
claim that every returned URL has the seed's scheme and host. -/
theorem discover_urls_cross_scheme_cex :
    "https://x/a" ∈ discover_urls webCross "http://x" 3 10 ∧
    (urlparse "https://x/a").scheme ≠ (urlparse "http://x").scheme := by
  constructor
  · decide
  · decide

/-- C1 (amended): every URL returned by `discover_urls` has the same netloc
(host) as the seed URL — links whose netloc differs are never enqueued —
but the scheme is not constrained. -/
theorem discover_urls_same_netloc (web : String → Option (List String))
    (base_url : String) (max_depth fuel : Nat) :
    ∀ u ∈ discover_urls web base_url max_depth fuel,
      (urlparse u).netloc = (urlparse base_url).netloc := by
  intro u hu
  refine discoverLoop_netloc web base_url max_depth fuel [(base_url, 0)] [] []
    ?_ ?_ u hu
  · intro p hp
    rcases List.mem_singleton.mp hp with rfl
    rfl
  · intro v hv
    simp at hv

/-- Witness for amended C1 at a concrete two-page site. -/
theorem discover_urls_same_netloc_witness :
    "http://x/a.html" ∈ discover_urls webSame "http://x" 3 10 ∧
    (urlparse "http://x/a.html").netloc = (urlparse "http://x").netloc :=
  ⟨by decide,
   discover_urls_same_netloc webSame "http://x" 3 10 "http://x/a.html"
     (by decide)⟩

/-- C3: in every run of `discover_urls` (any site, seed, depth bound and
fuel), no URL is fetched twice — the visited set admits each URL at most
once before fetching — and no fetch happens at a depth exceeding
`max_depth`. -/
theorem discover_urls_fetch_invariant (web : String → Option (List String))
    (base_url : String) (max_depth fuel : Nat) :
    ((discoverFetches web base_url max_depth fuel).map Prod.fst).Nodup ∧
    ∀ p ∈ discoverFetches web base_url max_depth fuel, p.2 ≤ max_depth := by
  constructor
  · exact discoverLoop_fetch_nodup web base_url max_depth fuel [(base_url, 0)] [] []
  · intro p hp
    exact (discoverLoop_fetch_mem web base_url max_depth fuel [(base_url, 0)]
      [] [] p hp).2

/-- C8 counterexample: the regex is compiled without `re.IGNORECASE`, so the
literal `window.location.href` is matched case-SENSITIVELY: an uppercase
spelling of the very same navigation pattern yields no match, while the
lowercase spelling matches — refuting the claim that the literal is matched
case-insensitively. -/
theorem nav_regex_case_sensitive_cex :
    reFindallNav "WINDOW.LOCATION.HREF='x.html'" = [] ∧
    reFindallNav "window.location.href='x.html'" = ["x.html"] := by
  constructor
  · decide
  · decide

/-- C8 (amended): inline `onclick` values are matched against the
`window.location.href = '<target>'` pattern case-SENSITIVELY on the literal,
accepting either single or double quotes (even mismatched) around a
non-empty quote-free target, which is captured. -/
theorem nav_regex_quote_insensitive (t : List Char) (q1 q2 : Char)
    (ht : t ≠ []) (hq : ∀ c ∈ t, isQuoteCh c = false)
    (h1 : isQuoteCh q1 = true) (h2 : isQuoteCh q2 = true) :
    reFindallNav
        (String.mk ("window.location.href".data ++ '=' :: q1 :: (t ++ [q2]))) =
      [String.mk t] := by
  have key : ∀ fuel,
      findNavTargets (fuel + 1)
        ("window.location.href".data ++ '=' :: q1 :: (t ++ [q2])) = [t] := by
    intro fuel
    have hw : ("window.location.href".data ++ '=' :: q1 :: (t ++ [q2])) =
        'w' :: ("indow.location.href".data ++ '=' :: q1 :: (t ++ [q2])) := rfl
    rw [hw]
    simp only [findNavTargets]
    rw [← hw, tryNavMatch_quoted t q1 q2 ht hq h1 h2]
    show t :: findNavTargets fuel [] = [t]
    rw [findNavTargets_nil]
  have hlen :
      (String.mk ("window.location.href".data ++ '=' :: q1 :: (t ++ [q2]))).data.length =
        (t.length + 22) + 1 := by
    have h20 : ("window.location.href".data).length = 20 := by decide
    simp [List.length_append, h20]
  unfold reFindallNav
  rw [hlen, key]
  rfl

/-- Witness for amended C8: a single-quoted target inside a double-quoted
HTML attribute, the shape used by the crawled pages. -/
theorem nav_regex_quote_insensitive_witness :
    ("x.html".data ≠ [] ∧ (∀ c ∈ "x.html".data, isQuoteCh c = false) ∧
      isQuoteCh '\'' = true ∧ isQuoteCh '"' = true) ∧
    reFindallNav
        (String.mk ("window.location.href".data ++ '=' :: '\'' ::
          ("x.html".data ++ ['"']))) = [String.mk "x.html".data] :=
  ⟨⟨by decide, by decide, by decide, by decide⟩,
   nav_regex_quote_insensitive "x.html".data '\'' '"' (by decide) (by decide)
     (by decide) (by decide)⟩

/-- C10: the homepage classifier ignores the query string and the fragment:
for any host `n` (free of `/?#`) and any path `p` (free of `#?;` markers)
that normalizes to a homepage alias, appending `?<q>` or `#<f>` leaves the
URL classified as a homepage, e.g. `http://x/index.html?page=2`. -/
theorem is_homepage_url_ignores_query_fragment (n p q f : String)
    (hn : ∀ c ∈ n.data, c ≠ '/' ∧ c ≠ '?' ∧ c ≠ '#')
    (hp1 : '#' ∉ p.data) (hp2 : '?' ∉ p.data) (hp3 : ';' ∉ p.data)
    (hq : '#' ∉ q.data)
    (hmem : stripSlashes (('/' :: p.data).map Char.toLower) ∈ homepagePaths) :
    is_homepage_url ("http://" ++ n ++ "/" ++ p ++ "?" ++ q) ("http://" ++ n) = true ∧
    is_homepage_url ("http://" ++ n ++ "/" ++ p ++ "#" ++ f) ("http://" ++ n) = true := by
  have hn' : ∀ c ∈ n.data, (!(c = '/' || c = '?' || c = '#')) = true := by
    intro c hc
    obtain ⟨a, b, d⟩ := hn c hc
    simp [a, b, d]
  have hsplit : ("http://" : String).data = "http:".data ++ ['/', '/'] := rfl
  have hdq : ("http://" ++ n ++ "/" ++ p ++ "?" ++ q).data =
      "http:".data ++ '/' :: '/' :: (n.data ++ '/' :: (p.data ++ '?' :: q.data)) := by
    simp [String.data_append, hsplit, List.append_assoc]
  have hdf : ("http://" ++ n ++ "/" ++ p ++ "#" ++ f).data =
      "http:".data ++ '/' :: '/' :: (n.data ++ '/' :: (p.data ++ '#' :: f.data)) := by
    simp [String.data_append, hsplit, List.append_assoc]
  have hdb : ("http://" ++ n).data = "http:".data ++ '/' :: '/' :: n.data := by
    simp [String.data_append, hsplit]
  constructor
  · unfold is_homepage_url urlparse
    rw [hdq, hdb, urlparseChars_query n.data p.data q.data hn' hp1 hp2 hp3 hq,
      urlparseChars_bare n.data hn']
    dsimp only
    rw [if_neg (by simp)]
    exact decide_eq_true hmem
  · unfold is_homepage_url urlparse
    rw [hdf, hdb, urlparseChars_frag n.data p.data f.data hn' hp1 hp2 hp3,
      urlparseChars_bare n.data hn']
    dsimp only
    rw [if_neg (by simp)]
    exact decide_eq_true hmem

/-- Witness for C10 at the spec's example `http://x/index.html?page=2`
(and a fragment variant). -/
theorem is_homepage_url_ignores_query_fragment_witness :
    ((∀ c ∈ ("x" : String).data, c ≠ '/' ∧ c ≠ '?' ∧ c ≠ '#') ∧
      '#' ∉ ("index.html" : String).data ∧ '?' ∉ ("index.html" : String).data ∧
      ';' ∉ ("index.html" : String).data ∧ '#' ∉ ("page=2" : String).data ∧
      stripSlashes (('/' :: ("index.html" : String).data).map Char.toLower) ∈
        homepagePaths) ∧
    is_homepage_url ("http://" ++ "x" ++ "/" ++ "index.html" ++ "?" ++ "page=2")
      ("http://" ++ "x") = true ∧
    is_homepage_url ("http://" ++ "x" ++ "/" ++ "index.html" ++ "#" ++ "top")
      ("http://" ++ "x") = true :=
  ⟨⟨by decide, by decide, by decide, by decide, by decide, by decide⟩,
   is_homepage_url_ignores_query_fragment "x" "index.html" "page=2" "top"
     (by decide) (by decide) (by decide) (by decide) (by decide) (by decide)⟩

end Rag

/-- Sanity example retained as a compiled check of the parser model. -/
example : (Rag.urlparse "http://x/a?q=1#f").netloc = "x".data := by decide

example : Rag.is_homepage_url "http://x/" "http://x" = true := by decide
example : Rag.is_homepage_url "http://x/INDEX.HTML" "http://x" = true := by decide
example : Rag.is_homepage_url "http://x/about" "http://x" = false := by decide
example : Rag.is_homepage_url "http://y/" "http://x" = false := by decide
example : Rag.urljoin "http://x" "https://x/a" = "https://x/a" := by decide
example : Rag.urljoin "http://x/a/b.html" "c.html" = "http://x/a/c.html" := by decide
example : Rag.urljoin "http://x/a/b.html" "../c.html" = "http://x/c.html" := by decide
